import Mathlib

/-!
Shallow embedding of `src/drv_system.c` (BreezySTM32 system utilities for the
STM32F103CB): SysTick-based timebase (`micros`, `millis`), busy-wait delays,
backup-register access, soft reset and failure mode.

Machine integers are modelled as `Nat` with explicit reduction modulo `2^32`
(`uint32_t`) or `2^64` (`uint64_t`) where the C arithmetic can wrap.
The volatile globals `usTicks`, `sysTickUptime` and the hardware register
`SysTick->VAL` are modelled as explicit state; interrupt/hardware activity
between the individual reads performed by `micros` is modelled as sequences
of environment steps (a SysTick interrupt firing, or the countdown register
decrementing).
-/

namespace BreezySTM32

/-- Range of a `uint16_t`, i.e. `2 ^ 16`. -/
def U16 : Nat := 65536

/-- Range of a `uint32_t`, i.e. `2 ^ 32`. -/
def U32 : Nat := 4294967296

/-- Range of a `uint64_t`, i.e. `2 ^ 64`. -/
def U64 : Nat := 18446744073709551616

/-- `cycleCounterInit` (drv_system.c:37-42): `usTicks = clocks.SYSCLK_Frequency / 1000000`,
stored into the `uint32_t` global `usTicks`.  Returns the value stored. -/
def cycleCounterInit (sysclkFrequency : Nat) : Nat :=
  sysclkFrequency / 1000000 % U32

/-- The mutable state shared between the SysTick interrupt and main-line code:
the `uint32_t` global `sysTickUptime` and the hardware countdown register
`SysTick->VAL`.  (`usTicks` is written once at initialization and read-only
afterwards, so it is passed as a plain parameter.) -/
structure SysState where
  sysTickUptime : Nat
  sysTickVal : Nat
deriving DecidableEq, Repr

/-- `SysTick_Handler` (drv_system.c:45-48): `sysTickUptime++` on the
`uint32_t` global, i.e. increment modulo `2^32`; nothing else is touched. -/
def SysTick_Handler (s : SysState) : SysState :=
  { s with sysTickUptime := (s.sysTickUptime + 1) % U32 }

/-- `millis` (drv_system.c:62-65): a single read of `sysTickUptime`. -/
def millis (s : SysState) : Nat :=
  s.sysTickUptime

/-- `uint32_t` subtraction `a - b` with wraparound (both operands reduced
into `uint32_t` range first). -/
def sub32 (a b : Nat) : Nat :=
  (a % U32 + U32 - b % U32) % U32

/-- The value computed by `micros` (drv_system.c:58) from the accepted sample:
`(uint64_t)ms * 1000 + (uint64_t)((usTicks * 1000 - cycle_cnt) / usTicks)`.
`usTicks * 1000 - cycle_cnt` is `uint32_t` arithmetic (it may wrap), the
division is `uint32_t` division, and the surrounding sum is `uint64_t`. -/
def microsVal (usTicks ms cycle_cnt : Nat) : Nat :=
  (ms * 1000 + sub32 (usTicks * 1000) cycle_cnt / usTicks) % U64

/-- One step the environment can take between the individual reads inside
`micros`: the SysTick interrupt fires (incrementing `sysTickUptime` and
reloading `SysTick->VAL`), or the countdown register decrements by one. -/
inductive EnvStep where
  | tick
  | decr
deriving DecidableEq, Repr

/-- Effect of one environment step on the shared state.  `reload` is the
SysTick reload value (`SystemCoreClock / 1000 - 1`): a tick reloads the
countdown register and increments the millisecond counter modulo `2^32`. -/
def envStep (reload : Nat) : EnvStep → SysState → SysState
  | .tick, s => { sysTickUptime := (s.sysTickUptime + 1) % U32, sysTickVal := reload }
  | .decr, s => { s with sysTickVal := s.sysTickVal - 1 }

/-- Run a sequence of environment steps. -/
def envRun (reload : Nat) (l : List EnvStep) (s : SysState) : SysState :=
  l.foldl (fun s e => envStep reload e s) s

/-- Number of SysTick interrupts in a sequence of environment steps. -/
def tickCount : List EnvStep → Nat
  | [] => 0
  | .tick :: l => tickCount l + 1
  | .decr :: l => tickCount l

/-- The environment activity interleaved with one pass of the do/while loop
in `micros` (drv_system.c:54-57): `gap` happens before `ms = sysTickUptime`,
`pre` between that read and `cycle_cnt = SysTick->VAL`, and `post` between
the register read and the re-read of `sysTickUptime` in the loop condition. -/
structure Attempt where
  gap : List EnvStep
  pre : List EnvStep
  post : List EnvStep
deriving DecidableEq, Repr

/-- The sample accepted by the do/while loop in `micros`: the values of the
locals `ms` and `cycle_cnt`, together with the (ghost) shared state at the
instant `SysTick->VAL` was read. -/
structure Sample where
  ms : Nat
  cc : Nat
  atVal : SysState
deriving DecidableEq, Repr

/-- The do/while retry loop of `micros` (drv_system.c:54-57): each pass reads
`ms = sysTickUptime`, then `cycle_cnt = SysTick->VAL`, then re-reads
`sysTickUptime`; it exits as soon as the two `sysTickUptime` reads agree and
retries otherwise.  The schedule of environment activity (one `Attempt` per
pass) serves as fuel: `none` means the schedule ran out before a pass
succeeded. -/
def microsLoop (reload : Nat) : List Attempt → SysState → Option Sample
  | [], _ => none
  | a :: rest, s =>
    let s0 := envRun reload a.gap s
    let ms := s0.sysTickUptime
    let s1 := envRun reload a.pre s0
    let cycle_cnt := s1.sysTickVal
    let s2 := envRun reload a.post s1
    if ms = s2.sysTickUptime then some ⟨ms, cycle_cnt, s1⟩
    else microsLoop reload rest s2

/-- `micros` (drv_system.c:51-59): run the retry loop, then combine the
accepted `ms`/`cycle_cnt` pair into the 64-bit microsecond count. -/
def micros (reload usTicks : Nat) (sched : List Attempt) (s : SysState) : Option Nat :=
  (microsLoop reload sched s).map fun r => microsVal usTicks r.ms r.cc

/-- The spin loop of `delayMicroseconds` (drv_system.c:129):
`while (micros() < (now + us));`.  The successive values returned by the
`micros()` polls are an oracle `readings : Nat → Nat` (`readings 0` is the
initial sample, `readings i` for `i ≥ 1` the `i`-th poll); `fuel` bounds the
number of polls, and the result is the index of the poll at which the loop
exited (`none` if the fuel ran out first). -/
def delayLoop (target : Nat) (readings : Nat → Nat) : Nat → Nat → Option Nat
  | 0, _ => none
  | fuel + 1, i => if readings i < target then delayLoop target readings fuel (i + 1) else some i

/-- `delayMicroseconds` (drv_system.c:126-130): sample `now = micros()` once
(`readings 0`), then spin until a poll of `micros()` is `≥ now + us`, the sum
being `uint64_t` addition. -/
def delayMicroseconds (us : Nat) (readings : Nat → Nat) (fuel : Nat) : Option Nat :=
  delayLoop ((readings 0 + us) % U64) readings fuel 1

/-- `delay` (drv_system.c:132-136): `while (ms--) delayMicroseconds(1000);`,
modelled as the trace of arguments passed to `delayMicroseconds`. -/
def delay : Nat → List Nat
  | 0 => []
  | ms + 1 => 1000 :: delay ms

/-- One externally visible memory-mapped write performed by the reset path. -/
inductive WriteEvent where
  /-- `RCC_APB1PeriphClockCmd(RCC_APB1Periph_PWR | RCC_APB1Periph_BKP, ENABLE)`
  (drv_system.c:152). -/
  | bkpClockEnable
  /-- `PWR->CR |= PWR_CR_DBP` (drv_system.c:153): unlock backup-domain writes. -/
  | dbpEnable
  /-- A halfword store to `(uint16_t *)BKP_BASE + index` (drv_system.c:155-156). -/
  | bkpHalfWrite (index value : Nat)
  /-- The 32-bit store `*(uint32_t *)addr = value` of the bootloader sentinel
  (drv_system.c:166). -/
  | ramWrite (addr value : Nat)
  /-- `SCB->AIRCR = value` (drv_system.c:173): the reset trigger. -/
  | aircrWrite (value : Nat)
deriving DecidableEq, Repr

/-- `rccWriteBkpDr` (drv_system.c:150-157) as the ordered trace of writes it
performs: enable the PWR/BKP clocks, unlock the backup domain, store
`value & 0xffff` at halfword offset `0x04` of `BKP_BASE`, then store
`(value & 0xffff0000) >> 16` at halfword offset `0x08`.
(`x & 0xffff = x % 2^16` and `(x & 0xffff0000) >> 16 = x / 2^16 % 2^16` for
`uint32_t x`.) -/
def rccWriteBkpDrTrace (value : Nat) : List WriteEvent :=
  [.bkpClockEnable, .dbpEnable,
   .bkpHalfWrite 0x04 (value % U16),
   .bkpHalfWrite 0x08 (value / U16 % U16)]

/-- The backup data region as a map from halfword offset (relative to
`BKP_BASE`, in `uint16_t` units) to the stored halfword. -/
def BkpMem : Type := Nat → Nat

/-- A halfword store into the backup region (the stored value is truncated
to 16 bits, as by assignment to a `uint16_t` lvalue). -/
def bkpStore (index value : Nat) (m : BkpMem) : BkpMem :=
  fun j => if j = index then value % U16 else m j

/-- Effect of `rccWriteBkpDr` (drv_system.c:150-157) on the backup region:
the two halfword stores of `rccWriteBkpDrTrace`, performed in order. -/
def rccWriteBkpDr (value : Nat) (m : BkpMem) : BkpMem :=
  bkpStore 0x08 (value / U16 % U16) (bkpStore 0x04 (value % U16) m)

/-- `rccReadBkpDr` (drv_system.c:145-148):
`*((uint16_t *)BKP_BASE + 0x04) | *((uint16_t *)BKP_BASE + 0x08) << 16`,
reassembling the 32-bit value from the same two halfword offsets. -/
def rccReadBkpDr (m : BkpMem) : Nat :=
  (m 0x04 % U16 + m 0x08 % U16 * U16) % U32

/-- `AIRCR_VECTKEY_MASK` (drv_system.c:159). -/
def AIRCR_VECTKEY_MASK : Nat := 0x05FA0000

/-- `systemReset` (drv_system.c:161-174) as the ordered trace of externally
visible writes.  `bkpSoftreset` is the value of the `BKP_SOFTRESET` macro
(defined in a header outside this file); the trace does not depend on it
structurally.  If `toBootloader`, first store the sentinel `0xDEADBEEF` at
RAM address `0x20004FF0`; then perform the `rccWriteBkpDr(BKP_SOFTRESET)`
writes; finally write the vendor key plus the reset-request bit `0x04` to
`SCB->AIRCR`.  The function does not return: the trace ends at the reset
trigger. -/
def systemReset (bkpSoftreset : Nat) (toBootloader : Bool) : List WriteEvent :=
  (if toBootloader then [.ramWrite 0x20004FF0 0xDEADBEEF] else [])
    ++ rccWriteBkpDrTrace bkpSoftreset
    ++ [.aircrWrite (AIRCR_VECTKEY_MASK + 0x04)]

/-- The two LED indicators; `true` means the indicator is asserted (on). -/
structure LedState where
  led0 : Bool
  led1 : Bool
deriving DecidableEq, Repr

/-- The `LED0_ON` macro: assert indicator 0. -/
def LED0_ON (s : LedState) : LedState :=
  { s with led0 := true }

/-- The `LED1_OFF` macro: deassert indicator 1. -/
def LED1_OFF (s : LedState) : LedState :=
  { s with led1 := false }

/-- `failureMode` (drv_system.c:138-143): `LED1_OFF; LED0_ON;
systemReset(false);`.  Returns the indicator state established immediately
before the reset is triggered, and the write trace of the reset call. -/
def failureMode (bkpSoftreset : Nat) (s : LedState) : LedState × List WriteEvent :=
  let s1 := LED1_OFF s
  let s2 := LED0_ON s1
  (s2, systemReset bkpSoftreset false)

/-! ### Helper lemmas about the environment and the retry loop -/

theorem envRun_nil (reload : Nat) (s : SysState) : envRun reload [] s = s := rfl

theorem envRun_cons (reload : Nat) (e : EnvStep) (l : List EnvStep) (s : SysState) :
    envRun reload (e :: l) s = envRun reload l (envStep reload e s) := rfl

theorem envStep_uptime_lt (reload : Nat) (e : EnvStep) (s : SysState)
    (h : s.sysTickUptime < U32) : (envStep reload e s).sysTickUptime < U32 := by
  cases e with
  | tick =>
    simp only [envStep, U32]
    omega
  | decr => exact h

theorem envRun_uptime_lt (reload : Nat) (l : List EnvStep) (s : SysState)
    (h : s.sysTickUptime < U32) : (envRun reload l s).sysTickUptime < U32 := by
  induction l generalizing s with
  | nil => exact h
  | cons e l ih => exact envRun_cons reload e l s ▸ ih _ (envStep_uptime_lt reload e s h)

theorem envRun_uptime (reload : Nat) (l : List EnvStep) (s : SysState)
    (h : s.sysTickUptime < U32) :
    (envRun reload l s).sysTickUptime = (s.sysTickUptime + tickCount l) % U32 := by
  induction l generalizing s with
  | nil => simp [envRun_nil, tickCount, Nat.mod_eq_of_lt h]
  | cons e l ih =>
    rw [envRun_cons, ih _ (envStep_uptime_lt reload e s h)]
    cases e with
    | tick =>
      simp only [envStep, tickCount, U32] at *
      omega
    | decr => rfl

theorem envRun_tickfree_uptime (reload : Nat) (l : List EnvStep) (s : SysState)
    (h : tickCount l = 0) : (envRun reload l s).sysTickUptime = s.sysTickUptime := by
  induction l generalizing s with
  | nil => rfl
  | cons e l ih =>
    cases e with
    | tick => exact absurd h (by simp [tickCount])
    | decr => rw [envRun_cons]; exact ih _ (by simpa [tickCount] using h)

theorem microsLoop_ms_lt (reload : Nat) (sched : List Attempt) (s : SysState) (r : Sample)
    (hs : s.sysTickUptime < U32) (hr : microsLoop reload sched s = some r) :
    r.ms < U32 := by
  induction sched generalizing s with
  | nil => exact absurd hr (by simp [microsLoop])
  | cons a rest ih =>
    simp only [microsLoop] at hr
    split at hr
    · cases hr
      exact envRun_uptime_lt reload a.gap s hs
    · exact ih _ (envRun_uptime_lt reload a.post _
        (envRun_uptime_lt reload a.pre _ (envRun_uptime_lt reload a.gap s hs))) hr

/-- Soundness of the retry loop: an accepted sample is consistent, i.e. the
local `ms` equals the `sysTickUptime` of the very state in which
`SysTick->VAL` was read (provided fewer than `2^32` ticks occur within each
pass, so the counter cannot wrap all the way around between the two reads). -/
theorem microsLoop_sound (reload : Nat) (sched : List Attempt) (s : SysState) (r : Sample)
    (hs : s.sysTickUptime < U32)
    (hb : ∀ a ∈ sched, tickCount a.pre + tickCount a.post < U32)
    (hr : microsLoop reload sched s = some r) :
    r.atVal.sysTickUptime = r.ms ∧ r.atVal.sysTickVal = r.cc := by
  induction sched generalizing s with
  | nil => exact absurd hr (by simp [microsLoop])
  | cons a rest ih =>
    simp only [microsLoop] at hr
    split at hr
    · rename_i hcond
      cases hr
      refine ⟨?_, rfl⟩
      have h0 : (envRun reload a.gap s).sysTickUptime < U32 :=
        envRun_uptime_lt reload a.gap s hs
      have h1 := envRun_uptime reload a.pre (envRun reload a.gap s) h0
      have h1lt : (envRun reload a.pre (envRun reload a.gap s)).sysTickUptime < U32 :=
        envRun_uptime_lt reload a.pre _ h0
      have h2 := envRun_uptime reload a.post (envRun reload a.pre (envRun reload a.gap s)) h1lt
      have hba := hb a (List.mem_cons_self a rest)
      simp only [U32] at *
      omega
    · exact ih _ (envRun_uptime_lt reload a.post _
        (envRun_uptime_lt reload a.pre _ (envRun_uptime_lt reload a.gap s hs)))
        (fun x hx => hb x (List.mem_cons_of_mem a hx)) hr

/-- The sub-millisecond term of `micros` never exceeds 1000 microseconds. -/
theorem subMsTerm_le (u c : Nat) (hu : 0 < u) : (u * 1000 - c) / u ≤ 1000 := by
  have h6 : (u * 1000 - c) / u ≤ u * 1000 / u :=
    Nat.div_le_div_right (Nat.sub_le (u * 1000) c)
  rwa [Nat.mul_div_cancel_left 1000 hu] at h6

/-- In the intended regime (`usTicks > 0`, no `uint32_t` overflow of
`usTicks * 1000`, `cycle_cnt` within the countdown period, `ms` a `uint32_t`
value), the wrap-aware `microsVal` collapses to the plain integer formula. -/
theorem microsVal_eq (u ms c : Nat) (hu : 0 < u) (hw : u * 1000 < U32)
    (hc : c ≤ u * 1000) (hms : ms < U32) :
    microsVal u ms c = ms * 1000 + (u * 1000 - c) / u := by
  unfold microsVal sub32
  rw [Nat.mod_eq_of_lt hw, Nat.mod_eq_of_lt (lt_of_le_of_lt hc hw)]
  have h3 : u * 1000 + U32 - c = (u * 1000 - c) + U32 := by omega
  rw [h3, Nat.add_mod_right, Nat.mod_eq_of_lt (lt_of_le_of_lt (Nat.sub_le _ _) hw)]
  have h5 : (u * 1000 - c) / u ≤ 1000 := subMsTerm_le u c hu
  apply Nat.mod_eq_of_lt
  simp only [U32, U64] at *
  omega

/-! ### The claims -/

/-- C1: every value returned by `micros()` equals
`ms * 1000 + (usTicks * 1000 - cycle_cnt) / usTicks` in integer division,
where `ms` and `cycle_cnt` are the tick counter and countdown register
values sampled by the call, and `usTicks` was set by `cycleCounterInit` to
the system clock frequency divided by 1,000,000. -/
theorem micros_value_formula (freq reload : Nat) (sched : List Attempt) (s : SysState)
    (r : Sample)
    (hu : 0 < freq / 1000000) (hw : freq / 1000000 * 1000 < U32)
    (hs : s.sysTickUptime < U32)
    (hr : microsLoop reload sched s = some r)
    (hc : r.cc ≤ freq / 1000000 * 1000) :
    micros reload (cycleCounterInit freq) sched s
      = some (r.ms * 1000 + (freq / 1000000 * 1000 - r.cc) / (freq / 1000000)) := by
  have hinit : cycleCounterInit freq = freq / 1000000 := by
    unfold cycleCounterInit
    apply Nat.mod_eq_of_lt
    simp only [U32] at *
    omega
  unfold micros
  rw [hr]
  simp only [Option.map_some']
  rw [hinit, microsVal_eq _ _ _ hu hw hc (microsLoop_ms_lt reload sched s r hs hr)]

/-- C1 witness: a 72 MHz clock (`usTicks = 72`), one clean pass sampling
`ms = 5`, `cycle_cnt = 99`. -/
theorem micros_value_formula_witness :
    (0 < 72000000 / 1000000 ∧ 72000000 / 1000000 * 1000 < U32
      ∧ (SysState.mk 5 100).sysTickUptime < U32
      ∧ microsLoop 71999 [Attempt.mk [] [.decr] []] (SysState.mk 5 100)
          = some (Sample.mk 5 99 (SysState.mk 5 99))
      ∧ (Sample.mk 5 99 (SysState.mk 5 99)).cc ≤ 72000000 / 1000000 * 1000)
    ∧ micros 71999 (cycleCounterInit 72000000) [Attempt.mk [] [.decr] []] (SysState.mk 5 100)
        = some ((Sample.mk 5 99 (SysState.mk 5 99)).ms * 1000
            + (72000000 / 1000000 * 1000 - (Sample.mk 5 99 (SysState.mk 5 99)).cc)
              / (72000000 / 1000000)) :=
  ⟨⟨by decide, by decide, by decide, by decide, by decide⟩,
    micros_value_formula 72000000 71999 [Attempt.mk [] [.decr] []] (SysState.mk 5 100)
      (Sample.mk 5 99 (SysState.mk 5 99)) (by decide) (by decide) (by decide)
      (by decide) (by decide)⟩

/-- C2: torn-read rejection.  Whenever the retry loop of `micros()` accepts a
sample (and fewer than `2^32` ticks occur within each pass, so the counter
cannot wrap all the way around between the two `sysTickUptime` reads), the
accepted `ms` and `cycle_cnt` coexist in a single shared state: the state in
which `SysTick->VAL` was read has `sysTickUptime = ms`, so the returned value
never pairs a pre-tick millisecond count with a post-reload countdown value
or vice versa. -/
theorem micros_torn_read_rejected (reload : Nat) (sched : List Attempt) (s : SysState)
    (r : Sample)
    (hs : s.sysTickUptime < U32)
    (hb : ∀ a ∈ sched, tickCount a.pre + tickCount a.post < U32)
    (hr : microsLoop reload sched s = some r) :
    r.atVal.sysTickUptime = r.ms ∧ r.atVal.sysTickVal = r.cc :=
  microsLoop_sound reload sched s r hs hb hr

/-- C2 witness: a tick injected exactly between the two `sysTickUptime`
reads forces a retry; the accepted sample of the second pass is consistent. -/
theorem micros_torn_read_rejected_witness :
    ((SysState.mk 5 100).sysTickUptime < U32
      ∧ (∀ a ∈ [Attempt.mk [] [.tick] [], Attempt.mk [] [.decr] []],
          tickCount a.pre + tickCount a.post < U32)
      ∧ microsLoop 71999 [Attempt.mk [] [.tick] [], Attempt.mk [] [.decr] []]
          (SysState.mk 5 100) = some (Sample.mk 6 71998 (SysState.mk 6 71998)))
    ∧ (Sample.mk 6 71998 (SysState.mk 6 71998)).atVal.sysTickUptime
        = (Sample.mk 6 71998 (SysState.mk 6 71998)).ms
    ∧ (Sample.mk 6 71998 (SysState.mk 6 71998)).atVal.sysTickVal
        = (Sample.mk 6 71998 (SysState.mk 6 71998)).cc :=
  ⟨⟨by decide, by decide, by decide⟩,
    micros_torn_read_rejected 71999 [Attempt.mk [] [.tick] [], Attempt.mk [] [.decr] []]
      (SysState.mk 5 100) (Sample.mk 6 71998 (SysState.mk 6 71998))
      (by decide) (by decide) (by decide)⟩

/-- C3: monotonicity.  For two calls to `micros()` that both return
(`v1` then `v2`), with no rollover of the 32-bit tick counter in between
(`r1.ms ≤ r2.ms` as plain naturals), countdown samples within the period
`0 .. usTicks * 1000 - 1`, and the countdown decremented-or-equal when no
tick intervened (`r1.ms = r2.ms → r2.cc ≤ r1.cc`), the second return value
is `≥` the first. -/
theorem micros_monotone (reload u : Nat) (sch1 sch2 : List Attempt) (s1 s2 : SysState)
    (r1 r2 : Sample) (v1 v2 : Nat)
    (hu : 0 < u) (hw : u * 1000 < U32)
    (hs1 : s1.sysTickUptime < U32) (hs2 : s2.sysTickUptime < U32)
    (h1 : microsLoop reload sch1 s1 = some r1)
    (h2 : microsLoop reload sch2 s2 = some r2)
    (hv1 : micros reload u sch1 s1 = some v1)
    (hv2 : micros reload u sch2 s2 = some v2)
    (hms : r1.ms ≤ r2.ms)
    (hc1 : r1.cc < u * 1000) (hc2 : r2.cc < u * 1000)
    (hsame : r1.ms = r2.ms → r2.cc ≤ r1.cc) :
    v1 ≤ v2 := by
  unfold micros at hv1 hv2
  rw [h1] at hv1
  rw [h2] at hv2
  simp only [Option.map_some', Option.some_inj] at hv1 hv2
  have hm1 : r1.ms < U32 := microsLoop_ms_lt reload sch1 s1 r1 hs1 h1
  have hm2 : r2.ms < U32 := microsLoop_ms_lt reload sch2 s2 r2 hs2 h2
  rw [← hv1, ← hv2,
    microsVal_eq u r1.ms r1.cc hu hw (le_of_lt hc1) hm1,
    microsVal_eq u r2.ms r2.cc hu hw (le_of_lt hc2) hm2]
  rcases Nat.eq_or_lt_of_le hms with heq | hlt
  · have hcc := hsame heq
    rw [heq]
    exact Nat.add_le_add_left (Nat.div_le_div_right (by omega)) _
  · have hq1 : (u * 1000 - r1.cc) / u ≤ 1000 := subMsTerm_le u r1.cc hu
    have hstep : r1.ms * 1000 + 1000 ≤ r2.ms * 1000 := by omega
    calc r1.ms * 1000 + (u * 1000 - r1.cc) / u
        ≤ r1.ms * 1000 + 1000 := Nat.add_le_add_left hq1 _
      _ ≤ r2.ms * 1000 := hstep
      _ ≤ r2.ms * 1000 + (u * 1000 - r2.cc) / u := Nat.le_add_right _ _

/-- C3 witness: two consistent samples one tick apart (`ms` 5 then 6). -/
theorem micros_monotone_witness :
    micros 71999 72 [Attempt.mk [] [] []] (SysState.mk 5 100)
        = some (microsVal 72 5 100)
    ∧ micros 71999 72 [Attempt.mk [.tick] [.decr] []] (SysState.mk 5 100)
        = some (microsVal 72 6 71998)
    ∧ microsVal 72 5 100 ≤ microsVal 72 6 71998 :=
  ⟨by decide, by decide,
    micros_monotone 71999 72 [Attempt.mk [] [] []] [Attempt.mk [.tick] [.decr] []]
      (SysState.mk 5 100) (SysState.mk 5 100)
      (Sample.mk 5 100 (SysState.mk 5 100)) (Sample.mk 6 71998 (SysState.mk 6 71998))
      (microsVal 72 5 100) (microsVal 72 6 71998)
      (by decide) (by decide) (by decide) (by decide) (by decide) (by decide)
      (by decide) (by decide) (by decide) (by decide) (by decide) (by decide)⟩

/-- C4: the do/while retry loop of `micros()` always exits and `micros()`
always returns a value, provided the environment activity contains some pass
with no tick increment between the two `sysTickUptime` reads (the tick
period being much larger than the time for the two reads). -/
theorem micros_retry_terminates (reload u : Nat) (sched : List Attempt) (s : SysState)
    (h : ∃ a ∈ sched, tickCount a.pre = 0 ∧ tickCount a.post = 0) :
    (micros reload u sched s).isSome = true := by
  have hloop : ∀ sched' : List Attempt, ∀ s' : SysState,
      (∃ a ∈ sched', tickCount a.pre = 0 ∧ tickCount a.post = 0) →
      (microsLoop reload sched' s').isSome = true := by
    intro sched'
    induction sched' with
    | nil => intro s' h'; simp at h'
    | cons a rest ih =>
      intro s' h'
      simp only [microsLoop]
      split
      · rfl
      · rename_i hcond
        rcases h' with ⟨b, hb, hbp⟩
        rcases List.mem_cons.mp hb with rfl | hbr
        · exact absurd (by rw [envRun_tickfree_uptime _ _ _ hbp.2,
            envRun_tickfree_uptime _ _ _ hbp.1]) hcond
        · exact ih _ ⟨b, hbr, hbp⟩
  have hsome := hloop sched s h
  unfold micros
  cases heq : microsLoop reload sched s with
  | none => rw [heq] at hsome; simp at hsome
  | some r => rfl

/-- C4 witness: a schedule whose first pass is disturbed by a tick and whose
second pass is clean; `micros` returns. -/
theorem micros_retry_terminates_witness :
    (∃ a ∈ [Attempt.mk [] [.tick] [], Attempt.mk [] [] []],
        tickCount a.pre = 0 ∧ tickCount a.post = 0)
    ∧ (micros 71999 72 [Attempt.mk [] [.tick] [], Attempt.mk [] [] []]
        (SysState.mk 5 100)).isSome = true :=
  ⟨by decide,
    micros_retry_terminates 71999 72 [Attempt.mk [] [.tick] [], Attempt.mk [] [] []]
      (SysState.mk 5 100) (by decide)⟩

/-- Iterating the tick handler adds the number of calls to the counter,
modulo `2^32`. -/
theorem sysTickHandler_iterate (n : Nat) (s : SysState) (h : s.sysTickUptime < U32) :
    (SysTick_Handler^[n] s).sysTickUptime = (s.sysTickUptime + n) % U32 := by
  induction n generalizing s with
  | zero => simp [Nat.mod_eq_of_lt h]
  | succ n ih =>
    rw [Function.iterate_succ_apply, ih]
    · simp only [SysTick_Handler, U32]
      omega
    · simp only [SysTick_Handler, U32]
      omega

/-- C5: starting from a counter of 0, after `n` tick-interrupt deliveries
`millis()` returns exactly `n % 2^32`; each handler invocation increments
the 32-bit counter by exactly 1 (wrapping modulo `2^32`) and changes nothing
else, and `millis()` is a single read of the counter. -/
theorem systick_millis_count (n : Nat) (s : SysState) (h : s.sysTickUptime = 0) :
    millis (SysTick_Handler^[n] s) = n % U32
    ∧ (∀ t : SysState,
        (SysTick_Handler t).sysTickUptime = (t.sysTickUptime + 1) % U32
        ∧ (SysTick_Handler t).sysTickVal = t.sysTickVal)
    ∧ ∀ t : SysState, millis t = t.sysTickUptime := by
  refine ⟨?_, fun t => ⟨rfl, rfl⟩, fun t => rfl⟩
  show (SysTick_Handler^[n] s).sysTickUptime = n % U32
  rw [sysTickHandler_iterate n s (by rw [h]; simp [U32]), h, Nat.zero_add]

/-- C5 witness: three ticks from a fresh counter yield `millis = 3`. -/
theorem systick_millis_count_witness :
    ((SysState.mk 0 7).sysTickUptime = 0 ∧ millis (SysTick_Handler^[3] (SysState.mk 0 7)) = 3 % U32)
    ∧ (∀ t : SysState,
        (SysTick_Handler t).sysTickUptime = (t.sysTickUptime + 1) % U32
        ∧ (SysTick_Handler t).sysTickVal = t.sysTickVal)
    ∧ ∀ t : SysState, millis t = t.sysTickUptime :=
  ⟨⟨rfl, (systick_millis_count 3 (SysState.mk 0 7) rfl).1⟩,
    (systick_millis_count 3 (SysState.mk 0 7) rfl).2.1,
    (systick_millis_count 3 (SysState.mk 0 7) rfl).2.2⟩

/-- If the spin loop of `delayMicroseconds` exits at poll `j`, then poll `j`
reached the target and every earlier poll (from the starting index on) was
below it. -/
theorem delayLoop_sound (target : Nat) (readings : Nat → Nat) :
    ∀ fuel i j, delayLoop target readings fuel i = some j →
      target ≤ readings j ∧ i ≤ j ∧ ∀ k, i ≤ k → k < j → readings k < target := by
  intro fuel
  induction fuel with
  | zero => intro i j hj; exact absurd hj (by simp [delayLoop])
  | succ fuel ih =>
    intro i j hj
    simp only [delayLoop] at hj
    split at hj
    · rename_i hlt
      obtain ⟨h1, h2, h3⟩ := ih (i + 1) j hj
      refine ⟨h1, by omega, fun k hik hkj => ?_⟩
      rcases Nat.eq_or_lt_of_le hik with rfl | hik'
      · exact hlt
      · exact h3 k hik' hkj
    · rename_i hge
      cases hj
      exact ⟨Nat.le_of_not_lt hge, Nat.le_refl _, fun k hik hkj => absurd hik (by omega)⟩

/-- If some poll within the fuel budget reaches the target, the spin loop of
`delayMicroseconds` exits. -/
theorem delayLoop_exits (target : Nat) (readings : Nat → Nat) :
    ∀ fuel i j, i ≤ j → j < i + fuel → target ≤ readings j →
      (delayLoop target readings fuel i).isSome = true := by
  intro fuel
  induction fuel with
  | zero => intro i j h1 h2 h3; omega
  | succ fuel ih =>
    intro i j h1 h2 h3
    simp only [delayLoop]
    split
    · rename_i hlt
      have hij : i ≠ j := fun he => absurd (he ▸ hlt) (by omega)
      exact ih (i + 1) j (by omega) (by omega) h3
    · rfl

/-- C6: `delayMicroseconds(us)` samples `micros()` once as `readings 0` and
spins; it returns exactly at the first subsequent poll whose value is
`≥ readings 0 + us` (every earlier poll is below the target, and such a poll
makes it return), and at that moment `micros()` has advanced by at least
`us` from the sampled start.  (No wraparound of the `uint64_t` sum
`now + us` is assumed.) -/
theorem delayMicroseconds_spec (us : Nat) (readings : Nat → Nat) (fuel : Nat)
    (hnw : readings 0 + us < U64) :
    (∀ i, delayMicroseconds us readings fuel = some i →
        readings 0 + us ≤ readings i ∧ us ≤ readings i - readings 0
          ∧ ∀ j, 1 ≤ j → j < i → readings j < readings 0 + us)
    ∧ ∀ i, 1 ≤ i → i < 1 + fuel → readings 0 + us ≤ readings i →
        (delayMicroseconds us readings fuel).isSome = true := by
  unfold delayMicroseconds
  rw [Nat.mod_eq_of_lt hnw]
  constructor
  · intro i hi
    obtain ⟨h1, h2, h3⟩ := delayLoop_sound (readings 0 + us) readings fuel 1 i hi
    exact ⟨h1, by omega, h3⟩
  · intro i h1 h2 h3
    exact delayLoop_exits (readings 0 + us) readings fuel 1 i h1 h2 h3

/-- C6 witness: with polls `0, 10, 20, 30, ...` and `us = 25`, the loop exits
at poll 3 (the first poll `≥ 25`). -/
theorem delayMicroseconds_spec_witness :
    ((fun i => 10 * i) 0 + 25 < U64)
    ∧ (∀ i, delayMicroseconds 25 (fun i => 10 * i) 5 = some i →
        (fun i => 10 * i) 0 + 25 ≤ (fun i => 10 * i) i
          ∧ 25 ≤ (fun i => 10 * i) i - (fun i => 10 * i) 0
          ∧ ∀ j, 1 ≤ j → j < i → (fun i => 10 * i) j < (fun i => 10 * i) 0 + 25)
    ∧ ∀ i, 1 ≤ i → i < 1 + 5 → (fun i => 10 * i) 0 + 25 ≤ (fun i => 10 * i) i →
        (delayMicroseconds 25 (fun i => 10 * i) 5).isSome = true :=
  ⟨by decide,
    (delayMicroseconds_spec 25 (fun i => 10 * i) 5 (by decide)).1,
    (delayMicroseconds_spec 25 (fun i => 10 * i) 5 (by decide)).2⟩

/-- C7: `delay(ms)` performs exactly `ms` sequential calls to
`delayMicroseconds(1000)` and nothing else; `delay 1` is the single call
`delayMicroseconds(1000)` and `delay 0` performs no calls. -/
theorem delay_calls_spec (ms : Nat) :
    delay ms = List.replicate ms 1000 ∧ (delay ms).length = ms
      ∧ delay 1 = [1000] ∧ delay 0 = [] := by
  have hrep : ∀ n : Nat, delay n = List.replicate n 1000 := by
    intro n
    induction n with
    | zero => rfl
    | succ n ih => simp [delay, ih, List.replicate_succ]
  exact ⟨hrep ms, by rw [hrep ms]; exact List.length_replicate ms 1000, rfl, rfl⟩

/-- C8: `systemReset(true)` performs, in this strict order: the sentinel
store `0xDEADBEEF` to RAM address `0x20004FF0`, then the writes of
`rccWriteBkpDr(BKP_SOFTRESET)` (clock enable, backup-domain unlock, and the
two halfword stores of the soft-reset magic), then the reset trigger
`SCB->AIRCR = AIRCR_VECTKEY_MASK | 0x04`; `systemReset(false)` performs the
same sequence minus the sentinel store. -/
theorem systemReset_write_order (bkpSoftreset : Nat) :
    systemReset bkpSoftreset true
      = WriteEvent.ramWrite 0x20004FF0 0xDEADBEEF
          :: WriteEvent.bkpClockEnable
          :: WriteEvent.dbpEnable
          :: WriteEvent.bkpHalfWrite 0x04 (bkpSoftreset % U16)
          :: WriteEvent.bkpHalfWrite 0x08 (bkpSoftreset / U16 % U16)
          :: [WriteEvent.aircrWrite (AIRCR_VECTKEY_MASK + 0x04)]
    ∧ systemReset bkpSoftreset false
      = WriteEvent.bkpClockEnable
          :: WriteEvent.dbpEnable
          :: WriteEvent.bkpHalfWrite 0x04 (bkpSoftreset % U16)
          :: WriteEvent.bkpHalfWrite 0x08 (bkpSoftreset / U16 % U16)
          :: [WriteEvent.aircrWrite (AIRCR_VECTKEY_MASK + 0x04)]
    ∧ systemReset bkpSoftreset true
        = WriteEvent.ramWrite 0x20004FF0 0xDEADBEEF :: systemReset bkpSoftreset false :=
  ⟨rfl, rfl, rfl⟩

/-- C9: `failureMode()`, from any initial indicator state, leaves LED0
asserted and LED1 deasserted (exactly one on, one off) immediately before
triggering the reset via `systemReset(false)`, whose write trace ends at the
reset trigger (the function does not return). -/
theorem failureMode_spec (bkpSoftreset : Nat) (s : LedState) :
    (failureMode bkpSoftreset s).1.led0 = true
    ∧ (failureMode bkpSoftreset s).1.led1 = false
    ∧ (failureMode bkpSoftreset s).1.led0 ≠ (failureMode bkpSoftreset s).1.led1
    ∧ (failureMode bkpSoftreset s).2 = systemReset bkpSoftreset false
    ∧ (failureMode bkpSoftreset s).2.getLast?
        = some (WriteEvent.aircrWrite (AIRCR_VECTKEY_MASK + 0x04)) :=
  ⟨rfl, rfl, by simp [failureMode, LED0_ON, LED1_OFF], rfl, rfl⟩

/-- C10: writing any 32-bit value with `rccWriteBkpDr` and reading it back
with `rccReadBkpDr` returns exactly that value: the writer stores the low
and high halfwords at halfword offsets `0x04` and `0x08` of the backup
region, and the reader reassembles the value from the same two offsets. -/
theorem bkpDr_roundtrip (v : Nat) (m : BkpMem) (hv : v < U32) :
    rccReadBkpDr (rccWriteBkpDr v m) = v := by
  unfold rccReadBkpDr rccWriteBkpDr bkpStore
  simp only [U16, U32] at *
  norm_num
  omega

/-- C10 witness: round-trip of the concrete value `0xDEADBEEF`. -/
theorem bkpDr_roundtrip_witness :
    (0xDEADBEEF < U32)
    ∧ rccReadBkpDr (rccWriteBkpDr 0xDEADBEEF (fun _ => 0)) = 0xDEADBEEF :=
  ⟨by decide, bkpDr_roundtrip 0xDEADBEEF (fun _ => 0) (by decide)⟩

end BreezySTM32
